import Mathlib

/-!
# Verification of the geocodebatch pipeline (`geocodebatch.py`)

Shallow embedding of the address-resolution pipeline: the address
normalizer `_normalize_address`, the Azure Maps client
`_azure_search_address` (its retry loop), the Census boundary resolver
`get_census_legislative_districts`, the per-address driver `get_results`
with its module-level cache, and the row loop of `main`.

Modelling conventions:
* characters are treated at ASCII precision: Python's `\s`, `\w`,
  `str.strip`, `str.lower` are embedded over the ASCII ranges that the
  inputs of interest use;
* machine floats (latitudes, longitudes, match scores) are carried as
  `Int` — no claim performs arithmetic on them, they are only stored,
  compared to `None`, and passed along;
* sleep durations are recorded in hundredths of a second, so the
  source's `1.0 + attempt * 0.5` becomes `100 + attempt * 50` and
  `RATE_LIMIT_SLEEP = 0.12` becomes `12`;
* HTTP traffic is an oracle: the Azure client takes the sequence of
  per-attempt responses, `get_results` takes a function from address to
  parsed first result, the Census resolver takes the parsed response;
* Python dicts holding result rows are embedded literally as
  association lists of `(key, value)` pairs, so a missing key and a key
  whose value is `None` stay distinguishable;
* a Python exception escaping a function is an `Except.error`.
-/

/-! ## Characters: ASCII embeddings of `\s`, `\w`, `str.lower` -/

/-- Python `\s` at ASCII precision: space, tab, newline, carriage
return, vertical tab, form feed. -/
def pySpace (c : Char) : Bool :=
  c == ' ' || c == '\t' || c == '\n' || c == '\r' || c == '\x0b' || c == '\x0c'

/-- Python `\w` at ASCII precision: letters, digits, underscore. -/
def isWordCh (c : Char) : Bool :=
  (decide ('a' ≤ c) && decide (c ≤ 'z')) || (decide ('A' ≤ c) && decide (c ≤ 'Z')) ||
  (decide ('0' ≤ c) && decide (c ≤ '9')) || c == '_'

/-- The character class `[\w\-]` of the unit-designator pattern. -/
def isWordHy (c : Char) : Bool := isWordCh c || c == '-'

/-- The 26 uppercase/lowercase ASCII pairs of `str.lower`. -/
def casePairs : List (Char × Char) :=
  [('A', 'a'), ('B', 'b'), ('C', 'c'), ('D', 'd'), ('E', 'e'), ('F', 'f'),
   ('G', 'g'), ('H', 'h'), ('I', 'i'), ('J', 'j'), ('K', 'k'), ('L', 'l'),
   ('M', 'm'), ('N', 'n'), ('O', 'o'), ('P', 'p'), ('Q', 'q'), ('R', 'r'),
   ('S', 's'), ('T', 't'), ('U', 'u'), ('V', 'v'), ('W', 'w'), ('X', 'x'),
   ('Y', 'y'), ('Z', 'z')]

/-- Python `str.lower` on one character, at ASCII precision. -/
def pyLower (c : Char) : Char :=
  ((casePairs.find? (fun p => p.1 == c)).map (fun p => p.2)).getD c

/-- Case-insensitive character comparison (`re.IGNORECASE`). -/
def eqCI (a b : Char) : Bool := pyLower a == pyLower b

/-- `str.lower` on a character list. -/
def lowerL (l : List Char) : List Char := l.map pyLower

/-- `str.strip` on a character list: drop leading and trailing
whitespace. -/
def stripL (l : List Char) : List Char :=
  ((l.dropWhile pySpace).reverse.dropWhile pySpace).reverse

/-- `re.sub(r'\s+', ' ', s)`: collapse every whitespace run to a single
space.  The flag records whether the scanner is inside a run whose
single space has already been emitted. -/
def collapseGo : Bool → List Char → List Char
  | _, [] => []
  | inRun, c :: t =>
    if pySpace c then
      if inRun then collapseGo true t else ' ' :: collapseGo true t
    else c :: collapseGo false t

/-- Whitespace collapsing from the initial state. -/
def collapseL (l : List Char) : List Char := collapseGo false l

/-! ## The unit-designator substitution
`re.sub(r'\s+(Apt|Apartment|Unit|Suite|Ste|#)\s*[\w\-]+', '', s, flags=re.IGNORECASE)`.

`stripPrefCI pat l` matches the literal alternative `pat`
case-insensitively at the head of `l`; `tryDesig` tries the six
alternatives in the pattern's order (they are pairwise incompatible as
prefixes, so first-match equals the regex engine's ordered
alternation); `tryMatch` matches the whole pattern at the current
position with maximal (greedy) quantifiers, returning the suffix after
the match; `subUnitsF` is the leftmost-scan of `re.sub`, fuelled by the
list length (each match consumes at least two characters). -/

/-- Match a literal pattern case-insensitively at the head, returning
the remainder. -/
def stripPrefCI : List Char → List Char → Option (List Char)
  | [], l => some l
  | _ :: _, [] => none
  | p :: ps, c :: cs => if eqCI p c then stripPrefCI ps cs else none

/-- The six designator alternatives, in the pattern's order. -/
def tryDesig (l : List Char) : Option (List Char) :=
  match stripPrefCI "Apt".data l with
  | some r => some r
  | none =>
  match stripPrefCI "Apartment".data l with
  | some r => some r
  | none =>
  match stripPrefCI "Unit".data l with
  | some r => some r
  | none =>
  match stripPrefCI "Suite".data l with
  | some r => some r
  | none =>
  match stripPrefCI "Ste".data l with
  | some r => some r
  | none => stripPrefCI "#".data l

/-- Match `\s+(desig)\s*[\w\-]+` at the head of `l`; `some r` is the
suffix after the (greedy) match. -/
def tryMatch (l : List Char) : Option (List Char) :=
  match l with
  | [] => none
  | c :: t =>
    if pySpace c then
      let rest1 := t.dropWhile pySpace
      match tryDesig rest1 with
      | none => none
      | some rest2 =>
        let rest3 := rest2.dropWhile pySpace
        match rest3 with
        | [] => none
        | d :: _ => if isWordHy d then some (rest3.dropWhile isWordHy) else none
    else none

/-- The leftmost scan of `re.sub`: at each position try the pattern;
on a match drop it and continue after it, otherwise keep the character
and move one position right. -/
def subUnitsF : Nat → List Char → List Char
  | 0, _ => []
  | _ + 1, [] => []
  | fuel + 1, c :: t =>
    match tryMatch (c :: t) with
    | some r => subUnitsF fuel r
    | none => c :: subUnitsF fuel t

/-- The unit-designator substitution (the fuel `l.length` is enough:
every match consumes at least two characters). -/
def subUnits (l : List Char) : List Char := subUnitsF l.length l

/-- `_normalize_address` on the character list of a non-`None` input:
strip, remove unit designators, collapse whitespace, strip, lower. -/
def normalizeL (l : List Char) : List Char :=
  lowerL (stripL (collapseL (subUnits (stripL l))))

/-- `_normalize_address` on a string input. -/
def pyNormalize (s : String) : String := ⟨normalizeL s.data⟩

/-- The unit-designator pass alone, on a string. -/
def subUnitsStr (s : String) : String := ⟨subUnits s.data⟩

/-- `str.lower` on a string. -/
def pyLowerStr (s : String) : String := ⟨lowerL s.data⟩

/-- An address cell as read from the table: `none` is Python `None`
(and the all-`NaN` missing cell, which `_normalize_address` maps to the
same empty key). -/
def normKey (a : Option String) : String :=
  match a with
  | none => ""
  | some s => pyNormalize s

/-! ## Result rows

A result row is the Python dict literally: an association list from
column name to cell value, so a missing key (`rowLookup` = `none`) and
a key present with value `None` (`rowLookup` = `some PyVal.none`) are
distinct, exactly as for a dict. -/

/-- A cell value of a result dict: Python `None`, a string, or a
number (floats carried as `Int`, see the header). -/
inductive PyVal where
  | none : PyVal
  | str : String → PyVal
  | num : Int → PyVal
deriving DecidableEq

/-- A result dict. -/
abbrev Row := List (String × PyVal)

/-- Dict lookup: `none` means the key is absent. -/
def rowLookup (k : String) (r : Row) : Option PyVal :=
  (List.find? (fun kv => kv.1 == k) r).map (fun kv => kv.2)

/-- The value stored under `input_string`: the raw address cell. -/
def pyOfAddr (a : Option String) : PyVal :=
  match a with
  | none => PyVal.none
  | some s => PyVal.str s

/-- An optional string as a cell value. -/
def ovs (o : Option String) : PyVal :=
  match o with
  | none => PyVal.none
  | some s => PyVal.str s

/-- An optional number as a cell value. -/
def ovn (o : Option Int) : PyVal :=
  match o with
  | none => PyVal.none
  | some n => PyVal.num n

/-- `_empty_row(address)`: the all-`None` row, keyed exactly as in the
source — twelve keys including `country`. -/
def emptyRow (a : Option String) : Row :=
  [("formatted_address", PyVal.none), ("latitude", PyVal.none),
   ("longitude", PyVal.none), ("state", PyVal.none), ("county", PyVal.none),
   ("city", PyVal.none), ("postal_code", PyVal.none), ("country", PyVal.none),
   ("confidence", PyVal.none), ("state_senate_district", PyVal.none),
   ("state_house_district", PyVal.none), ("input_string", pyOfAddr a)]

/-! ## The Azure Maps client -/

/-- The `address` object of an Azure result; `result.get("address") or {}`
on a missing object gives the empty dict, i.e. all fields `None`. -/
structure AzAddress where
  freeformAddress : Option String := none
  country : Option String := none
  countrySubdivision : Option String := none
  countrySecondarySubdivision : Option String := none
  municipality : Option String := none
  postalCode : Option String := none
deriving DecidableEq, Inhabited

/-- The `position` object of an Azure result. -/
structure AzPosition where
  lat : Option Int := none
  lng : Option Int := none
deriving DecidableEq, Inhabited

/-- One parsed entry of the Azure `results` list. -/
structure AzureResult where
  position : Option AzPosition := none
  address : Option AzAddress := none
  score : Option Int := none
deriving DecidableEq, Inhabited

/-- One HTTP attempt's outcome, as `_azure_search_address` sees it: a
status code with the parsed `results` list (only used on 200), or a
`requests.RequestException`. -/
inductive AzResp where
  | status : Nat → List AzureResult → AzResp
  | netExc : AzResp

/-- `AZURE_MAX_RETRIES` from the configuration block. -/
def AZURE_MAX_RETRIES : Nat := 2

/-- The statuses the retry loop retries on: 429 and the listed server
errors `(500, 502, 503, 504)`. -/
def retryable (c : Nat) : Bool :=
  c == 429 || c == 500 || c == 502 || c == 503 || c == 504

/-- Whether an attempt outcome is retried (a retryable status or a
network-level exception). -/
def retryableResp : AzResp → Bool
  | AzResp.netExc => true
  | AzResp.status c _ => retryable c

/-- The retry loop of `_azure_search_address`.  `resp` is the oracle
giving each attempt's outcome, `attempt` the current index, the last
argument the remaining iterations of `range(max_retries + 1)`.
Returns (first result or `None`, sleeps in hundredths of a second,
number of HTTP requests issued). -/
def azureLoop (resp : Nat → AzResp) : Nat → Nat → Option AzureResult × List Nat × Nat
  | _, 0 => (none, [], 0)
  | attempt, rem + 1 =>
    match resp attempt with
    | AzResp.status c rs =>
      if c == 200 then (rs.head?, [12], 1)
      else if retryable c then
        let t := azureLoop resp (attempt + 1) rem
        (t.1, (100 + attempt * 50) :: t.2.1, t.2.2 + 1)
      else (none, [], 1)
    | AzResp.netExc =>
      let t := azureLoop resp (attempt + 1) rem
      (t.1, (100 + attempt * 50) :: t.2.1, t.2.2 + 1)

/-- `_azure_search_address` with the default `max_retries`. -/
def azureSearchAddress (resp : Nat → AzResp) : Option AzureResult × List Nat × Nat :=
  azureLoop resp 0 (AZURE_MAX_RETRIES + 1)

/-! ## The Census boundary resolver -/

/-- One feature of a geography layer: the attributes the source
reads. -/
structure CensusFeature where
  STATE : Option String := none
  BASENAME : Option String := none
deriving DecidableEq

/-- The `result.geographies` object: layer name to feature list, in
response order. -/
abbrev CensusGeos := List (String × List CensusFeature)

/-- A Census response as the resolver sees it: the request/JSON-decode
block raised (`fail`), or decoded JSON whose `result.geographies` is
absent (`ok none`) or present. -/
inductive CensusResp where
  | fail : CensusResp
  | ok : Option CensusGeos → CensusResp

/-- The two district fields the resolver returns. -/
structure Districts where
  senate : Option String := none
  house : Option String := none
deriving DecidableEq

/-- `str(x)` on an optional string: `str(None)` is the string
`"None"`. -/
def pyStr (o : Option String) : String :=
  match o with
  | none => "None"
  | some s => s

/-- Dict membership plus indexing for a geography layer by exact key. -/
def lookupLayer (geos : CensusGeos) (k : String) : Option (List CensusFeature) :=
  (List.find? (fun kv => kv.1 == k) geos).map (fun kv => kv.2)

/-- Is `needle` a substring of `hay` (Python's `in` on strings)? -/
def hasSubstr (needle : List Char) : List Char → Bool
  | [] => needle.isEmpty
  | c :: t => (decide (needle <+: c :: t) : Bool) || hasSubstr needle t

/-- `next((key for key in geographies if needle in key), None)` followed
by `geographies.get(key)`: the first layer whose name contains the
needle. -/
def findLayer (geos : CensusGeos) (needle : String) : Option (List CensusFeature) :=
  (List.find? (fun kv => hasSubstr needle.data kv.1.data) geos).map (fun kv => kv.2)

/-- `BASENAME` of the first feature of the named layer, when the layer
key exists and its list is non-empty (`if key and geographies.get(key):`). -/
def layerBase (geos : CensusGeos) (needle : String) : Option String :=
  match findLayer geos needle with
  | some (f :: _) => f.BASENAME
  | _ => none

/-- The `States` block: `str(geographies["States"][0].get("STATE"))`
when the key exists — indexing an empty list raises (`Except.error`);
`state_code` stays `None` when the key is absent. -/
def censusStateCode (geos : CensusGeos) : Except Unit (Option String) :=
  match lookupLayer geos "States" with
  | none => Except.ok none
  | some [] => Except.error ()
  | some (f :: _) => Except.ok (some (pyStr f.STATE))

/-- `get_census_legislative_districts`, as a function of the parsed
response.  The request/JSON failures caught by the `try` block return
both fields `None`; after the `try`, the `States` indexing can raise;
finally a resolved state code other than `"27"` overwrites the senate
field with the `"Not Minnesota"` sentinel. -/
def getCensusLegislativeDistricts (resp : CensusResp) : Except Unit Districts :=
  match resp with
  | CensusResp.fail => Except.ok { senate := none, house := none }
  | CensusResp.ok geosOpt =>
    let codeE := match geosOpt with
      | none => Except.ok none
      | some geos => censusStateCode geos
    match codeE with
    | Except.error e => Except.error e
    | Except.ok stateCode =>
      let house := match geosOpt with
        | none => none
        | some geos => layerBase geos "State Legislative Districts - Lower"
      let senate0 := match geosOpt with
        | none => none
        | some geos => layerBase geos "State Legislative Districts - Upper"
      let senate := if stateCode = some "27" then senate0 else some "Not Minnesota"
      Except.ok { senate := senate, house := house }

/-! ## `get_results`: one address through the pipeline -/

/-- The success-path row dict of `get_results` (source lines 250-262),
keyed exactly as in the source: eleven keys, no `country` entry — the
`country` variable read from the match is never stored. -/
def successRow (addr : AzAddress) (lat lng : Option Int) (score : Option Int)
    (d : Districts) (a : Option String) : Row :=
  [("formatted_address", ovs addr.freeformAddress), ("latitude", ovn lat),
   ("longitude", ovn lng), ("state", ovs addr.countrySubdivision),
   ("county", ovs addr.countrySecondarySubdivision),
   ("city", ovs addr.municipality), ("postal_code", ovs addr.postalCode),
   ("confidence", ovn score), ("state_senate_district", ovs d.senate),
   ("state_house_district", ovs d.house), ("input_string", pyOfAddr a)]

/-- The `if result:` branch of `get_results`: extract position and
address, gate the Census call on `country == "US" and state == "MN"`
and both coordinates present, and build the row; an exception from the
Census call is caught by the surrounding `try` and yields
`_empty_row`. -/
def processMatch (census : Int → Int → Except Unit Districts)
    (a : Option String) (r : AzureResult) : Row :=
  let pos := r.position.getD default
  let addr := r.address.getD default
  match pos.lat, pos.lng with
  | some la, some ln =>
    if addr.country == some "US" && addr.countrySubdivision == some "MN" then
      match census la ln with
      | Except.error _ => emptyRow a
      | Except.ok d => successRow addr (some la) (some ln) r.score d a
    else successRow addr (some la) (some ln) r.score { senate := none, house := none } a
  | la, ln => successRow addr la ln r.score { senate := none, house := none } a

/-- The module-level `cache`. -/
abbrev Cache := List (String × Row)

/-- Dict lookup in the cache. -/
def cacheLookup (c : Cache) (k : String) : Option Row :=
  (List.find? (fun kv => kv.1 == k) c).map (fun kv => kv.2)

/-- Dict assignment `cache[key] = row`, modelled as a shadowing insert
(lookup-equivalent to the dict update; nothing iterates the cache). -/
def cacheInsert (c : Cache) (k : String) (r : Row) : Cache := (k, r) :: c

/-- The keys short-circuited by
`if key in ("", "nan", "none"):`. -/
def blankKey (k : String) : Bool := k == "" || k == "nan" || k == "none"

/-- `get_results`: normalize, short-circuit blank keys, consult the
cache, otherwise call the client and build the row, caching it.
Returns (row, cache after the call, list of addresses sent to the
geocoding client). -/
def getResults (azure : Option String → Option AzureResult)
    (census : Int → Int → Except Unit Districts)
    (c : Cache) (a : Option String) : Row × Cache × List (Option String) :=
  let key := normKey a
  if blankKey key then
    let row := emptyRow a
    (row, cacheInsert c key row, [])
  else
    match cacheLookup c key with
    | some row => (row, c, [])
    | none =>
      let row := match azure a with
        | some r => processMatch census a r
        | none => emptyRow a
      (row, cacheInsert c key row, [a])

/-- The row loop of `main`: one `get_results` per address in order,
`except Exception` at the row boundary replaced by the all-null row
(`exc i = true` makes row `i` raise).  Returns (result rows, final
cache, all addresses sent to the geocoding client, in order). -/
def runBatch (azure : Option String → Option AzureResult)
    (census : Int → Int → Except Unit Districts)
    (exc : Nat → Bool) : List (Option String) → Cache → List Row × Cache × List (Option String)
  | [], c => ([], c, [])
  | a :: rest, c =>
    let step := if exc 0 then (emptyRow a, c, []) else getResults azure census c a
    let t := runBatch azure census (fun n => exc (n + 1)) rest step.2.1
    (step.1 :: t.1, t.2.1, step.2.2 ++ t.2.2)

/-- Calls to the geocoding client whose address normalizes to `k`. -/
def countCalls (k : String) (calls : List (Option String)) : Nat :=
  (calls.filter (fun a => normKey a == k)).length

/-! ## Concrete fixtures -/

/-- A provider match in Minneapolis, MN. -/
def addrMN : AzAddress :=
  { freeformAddress := some "100 1st St N, Minneapolis, MN 55401",
    country := some "US", countrySubdivision := some "MN",
    countrySecondarySubdivision := some "Hennepin",
    municipality := some "Minneapolis", postalCode := some "55401" }

/-- A full Azure result for the Minneapolis match. -/
def resMN : AzureResult :=
  { position := some { lat := some 44, lng := some (-93) },
    address := some addrMN, score := some 1 }

/-- A Census oracle returning ordinary Minnesota districts. -/
def censusMN : Int → Int → Except Unit Districts :=
  fun _ _ => Except.ok { senate := some "60", house := some "60A" }

/-- A provider match in Madison, WI: country `US`, state not `MN`. -/
def addrWI : AzAddress :=
  { freeformAddress := some "1 Main St, Madison, WI 53703",
    country := some "US", countrySubdivision := some "WI",
    countrySecondarySubdivision := some "Dane",
    municipality := some "Madison", postalCode := some "53703" }

/-- A full Azure result for the Madison match. -/
def resWI : AzureResult :=
  { position := some { lat := some 43, lng := some (-89) },
    address := some addrWI, score := some 1 }

/-- A decoded Census response locating the point in Missouri (state
code `"29"`), with an upper-district layer under a vintage-prefixed
key. -/
def geosMO : CensusGeos :=
  [("States", [{ STATE := some "29", BASENAME := some "Missouri" }]),
   ("2024 State Legislative Districts - Upper",
    [{ STATE := some "29", BASENAME := some "5" }])]

/-! ## Claim C1 -/

/-- Claim C1: refuted by the code — the success-path row of
`get_results` carries no `country` key at all (the `country` variable
read from the provider match is never stored in the row), while the
miss row `_empty_row` does carry `country = None`; so a successful
match, here one whose provider `country` is `"US"`, produces a row
without the country field the claim promises. -/
theorem c1_success_row_missing_country :
    rowLookup "country" (processMatch censusMN (some "100 1st St N, Minneapolis") resMN) = none
    ∧ rowLookup "country" (emptyRow (some "100 1st St N, Minneapolis")) = some PyVal.none
    ∧ (resMN.address.getD default).country = some "US" :=
  ⟨rfl, rfl, rfl⟩

/-! ## Claim C3 -/

/-- Claim C3: refuted by the code — a decoded response whose `States`
layer is present but an empty list makes
`get_census_legislative_districts` raise `IndexError` at
`geographies["States"][0]` instead of returning a dict, while the
caught request/parse failures do degrade to both fields null. -/
theorem c3_raises_on_empty_states_layer :
    getCensusLegislativeDistricts (CensusResp.ok (some [("States", [])])) = Except.error ()
    ∧ getCensusLegislativeDistricts CensusResp.fail = Except.ok { senate := none, house := none } :=
  ⟨rfl, rfl⟩

/-! ## Claim C4 -/

/-- Claim C4, counterexample: HTTP 501 is a 5xx response, but the
client returns null immediately after a single request with no sleep
and no retry — the retried statuses are only 429, 500, 502, 503, 504. -/
theorem c4_counterexample :
    azureSearchAddress (fun _ => AzResp.status 501 []) = (none, [], 1)
    ∧ 500 ≤ 501 ∧ 501 ≤ 599 ∧ (1 : Nat) ≠ AZURE_MAX_RETRIES + 1 :=
  ⟨rfl, by decide, by decide, by decide⟩

/-- The sleep schedule of a fully retried window starting at a given
attempt index: `1.0 + attempt * 0.5` seconds per retry, in
hundredths. -/
def sleepsFrom (attempt : Nat) : Nat → List Nat
  | 0 => []
  | r + 1 => (100 + attempt * 50) :: sleepsFrom (attempt + 1) r

/-- A retryable status is never 200. -/
theorem retryable_ne_200 {c : Nat} (h : retryable c = true) : (c == 200) = false := by
  unfold retryable at h
  rcases Bool.or_eq_true_iff.mp h with h1 | h1
  · rcases Bool.or_eq_true_iff.mp h1 with h2 | h2
    · rcases Bool.or_eq_true_iff.mp h2 with h3 | h3
      · rcases Bool.or_eq_true_iff.mp h3 with h4 | h4 <;>
          simp_all [Nat.beq_eq_true_eq]
      · simp_all [Nat.beq_eq_true_eq]
    · simp_all [Nat.beq_eq_true_eq]
  · simp_all [Nat.beq_eq_true_eq]

/-- When every attempt in the window gets a retryable outcome, the loop
issues one request per iteration, sleeps the linear schedule, and ends
with `None`. -/
theorem azureLoop_all_retryable (resp : Nat → AzResp) :
    ∀ (rem attempt : Nat),
      (∀ i, attempt ≤ i → i < attempt + rem → retryableResp (resp i) = true) →
      azureLoop resp attempt rem = (none, sleepsFrom attempt rem, rem) := by
  intro rem
  induction rem with
  | zero => intro attempt _; rfl
  | succ r ih =>
    intro attempt h
    have h0 : retryableResp (resp attempt) = true :=
      h attempt (Nat.le_refl _) (by omega)
    have hrec : azureLoop resp (attempt + 1) r = (none, sleepsFrom (attempt + 1) r, r) :=
      ih (attempt + 1) (fun i h1 h2 => h i (by omega) (by omega))
    cases hr : resp attempt with
    | netExc => simp [azureLoop, hr, hrec, sleepsFrom]
    | status c rs =>
      rw [hr] at h0
      have hc : retryable c = true := h0
      simp [azureLoop, hr, retryable_ne_200 hc, hc, hrec, sleepsFrom]

/-- Claim C4, amended: the retried outcomes are HTTP 429, 500, 502,
503, 504 and network-level request exceptions — each retry sleeps
`1.0 + attempt * 0.5` seconds and the loop gives up after
`AZURE_MAX_RETRIES` additional attempts, returning null without
raising; any non-200 status outside that set (including other 5xx,
such as 501) returns null immediately with no retry; a 200 response
with an empty results list returns null as a valid no-match after the
rate-limit sleep. -/
theorem c4_amended :
    (∀ resp : Nat → AzResp,
       (∀ i, i < AZURE_MAX_RETRIES + 1 → retryableResp (resp i) = true) →
       azureSearchAddress resp = (none, [100, 150, 200], AZURE_MAX_RETRIES + 1))
    ∧ (∀ (resp : Nat → AzResp) (c : Nat) (rs : List AzureResult),
       resp 0 = AzResp.status c rs → (c == 200) = false → retryable c = false →
       azureSearchAddress resp = (none, [], 1))
    ∧ (∀ resp : Nat → AzResp,
       resp 0 = AzResp.status 200 [] → azureSearchAddress resp = (none, [12], 1)) := by
  refine ⟨fun resp h => ?_, fun resp c rs h0 h200 hnr => ?_, fun resp h0 => ?_⟩
  · have := azureLoop_all_retryable resp (AZURE_MAX_RETRIES + 1) 0
      (fun i h1 h2 => h i (by omega))
    simpa [azureSearchAddress, sleepsFrom] using this
  · simp [azureSearchAddress, azureLoop, h0, h200, hnr, AZURE_MAX_RETRIES]
  · simp [azureSearchAddress, azureLoop, h0, AZURE_MAX_RETRIES]

/-- Witness for the amended C4 at concrete response sequences: a
provider always answering 503 exhausts the three attempts and returns
null; a 404 returns null immediately; a 200 with no results returns
null as a no-match. -/
theorem c4_amended_witness :
    azureSearchAddress (fun _ => AzResp.status 503 []) = (none, [100, 150, 200], 3)
    ∧ azureSearchAddress (fun _ => AzResp.status 404 []) = (none, [], 1)
    ∧ azureSearchAddress (fun _ => AzResp.status 200 []) = (none, [12], 1) :=
  ⟨c4_amended.1 _ (by decide), c4_amended.2.1 _ 404 [] rfl (by decide) (by decide),
   c4_amended.2.2 _ rfl⟩

/-! ## Claims C9 and C10 -/

/-- Claim C9: an address whose normalized key is blank (Python `None`
included) short-circuits: `get_results` returns the all-null row —
every field `None` except `input_string`, which holds the original
input — makes no call to the geocoding client, and caches the row
under the blank key. -/
theorem c9_blank_short_circuit (azure : Option String → Option AzureResult)
    (census : Int → Int → Except Unit Districts) (c : Cache) (a : Option String)
    (h : normKey a = "") :
    getResults azure census c a = (emptyRow a, cacheInsert c "" (emptyRow a), [])
    ∧ (∀ k v, (k, v) ∈ emptyRow a → k = "input_string" ∨ v = PyVal.none)
    ∧ rowLookup "input_string" (emptyRow a) = some (pyOfAddr a) := by
  refine ⟨by simp [getResults, h, blankKey], ?_, rfl⟩
  intro k v hm
  simp only [emptyRow, List.mem_cons, List.not_mem_nil, or_false, Prod.mk.injEq] at hm
  rcases hm with h1 | h1 | h1 | h1 | h1 | h1 | h1 | h1 | h1 | h1 | h1 | h1
  all_goals first
  | exact Or.inr h1.2
  | exact Or.inl h1.1

/-- Witness for C9 at the concrete whitespace-only input. -/
theorem c9_witness :
    normKey (some " ") = ""
    ∧ getResults (fun _ => none) (fun _ _ => Except.ok {}) [] (some " ") =
        (emptyRow (some " "), cacheInsert [] "" (emptyRow (some " ")), [])
    ∧ rowLookup "input_string" (emptyRow (some " ")) = some (pyOfAddr (some " ")) :=
  ⟨by decide,
   (c9_blank_short_circuit (fun _ => none) (fun _ _ => Except.ok {}) [] (some " ") (by decide)).1,
   (c9_blank_short_circuit (fun _ => none) (fun _ _ => Except.ok {}) [] (some " ") (by decide)).2.2⟩

/-- Claim C10: an address whose normalized key is the literal string
`"nan"` or `"none"` is treated exactly like a blank one: `get_results`
short-circuits to the all-null row with `input_string` the original
value, before the cache lookup (the equation holds for every cache,
including one already holding that key) and with no call to the
geocoding client. -/
theorem c10_nan_none_short_circuit (azure : Option String → Option AzureResult)
    (census : Int → Int → Except Unit Districts) (c : Cache) (a : Option String)
    (h : normKey a = "nan" ∨ normKey a = "none") :
    getResults azure census c a = (emptyRow a, cacheInsert c (normKey a) (emptyRow a), [])
    ∧ rowLookup "input_string" (emptyRow a) = some (pyOfAddr a) := by
  refine ⟨?_, rfl⟩
  rcases h with h | h <;> simp [getResults, h, blankKey]

/-- Witness for C10 at the stringified missing cell `"NaN"`, against a
cache that already holds the key `"nan"` — the cached row is
bypassed. -/
theorem c10_witness :
    (normKey (some "NaN") = "nan" ∨ normKey (some "NaN") = "none")
    ∧ getResults (fun _ => none) (fun _ _ => Except.ok {}) [("nan", emptyRow none)] (some "NaN") =
        (emptyRow (some "NaN"),
         cacheInsert [("nan", emptyRow none)] (normKey (some "NaN")) (emptyRow (some "NaN")), [])
    ∧ rowLookup "input_string" (emptyRow (some "NaN")) = some (pyOfAddr (some "NaN")) :=
  ⟨by decide,
   (c10_nan_none_short_circuit (fun _ => none) (fun _ _ => Except.ok {})
      [("nan", emptyRow none)] (some "NaN") (by decide)).1,
   (c10_nan_none_short_circuit (fun _ => none) (fun _ _ => Except.ok {})
      [("nan", emptyRow none)] (some "NaN") (by decide)).2⟩

/-! ## Claim C2 -/

/-- The senate field of a success row is the senate value the row was
built with. -/
theorem rowLookup_successRow_senate (addr : AzAddress) (lat lng score : Option Int)
    (d : Districts) (a : Option String) :
    rowLookup "state_senate_district" (successRow addr lat lng score d a) = some (ovs d.senate) :=
  rfl

/-- The house field of a success row is the house value the row was
built with. -/
theorem rowLookup_successRow_house (addr : AzAddress) (lat lng score : Option Int)
    (d : Districts) (a : Option String) :
    rowLookup "state_house_district" (successRow addr lat lng score d a) = some (ovs d.house) :=
  rfl

/-- Claim C2, counterexample: a provider match with country `US` and
state `WI` (not the target region) yields null in both district
fields — not the `"Not Minnesota"` sentinel the claim requires in the
senate field — because the gate in `get_results` skips the Census call
entirely when the provider state is not `MN`. -/
theorem c2_counterexample :
    rowLookup "state_senate_district"
        (processMatch (fun _ _ => Except.ok { senate := some "Not Minnesota", house := some "12A" })
          (some "1 Main St, Madison, WI") resWI) = some PyVal.none
    ∧ rowLookup "state_house_district"
        (processMatch (fun _ _ => Except.ok { senate := some "Not Minnesota", house := some "12A" })
          (some "1 Main St, Madison, WI") resWI) = some PyVal.none
    ∧ some PyVal.none ≠ some (PyVal.str "Not Minnesota")
    ∧ (resWI.address.getD default).country = some "US"
    ∧ (resWI.address.getD default).countrySubdivision = some "WI" :=
  ⟨rfl, rfl, by decide, rfl, rfl⟩

/-- Claim C2, amended: whenever the provider match has country ≠ US or
state ≠ MN, both district fields of the result row are null — the
resolver is not invoked; the `"Not Minnesota"` sentinel appears in the
senate field only when the resolver does run and its successfully
parsed response resolves a state code other than `"27"`. -/
theorem c2_amended :
    (∀ (census : Int → Int → Except Unit Districts) (a : Option String) (r : AzureResult),
       ((r.address.getD default).country ≠ some "US"
         ∨ (r.address.getD default).countrySubdivision ≠ some "MN") →
       rowLookup "state_senate_district" (processMatch census a r) = some PyVal.none
       ∧ rowLookup "state_house_district" (processMatch census a r) = some PyVal.none)
    ∧ (∀ (geos : CensusGeos) (sc : Option String) (d : Districts),
       censusStateCode geos = Except.ok sc → sc ≠ some "27" →
       getCensusLegislativeDistricts (CensusResp.ok (some geos)) = Except.ok d →
       d.senate = some "Not Minnesota") := by
  constructor
  · intro census a r h
    have hb : ((r.address.getD default).country == some "US"
        && (r.address.getD default).countrySubdivision == some "MN") = false := by
      rcases h with h | h
      · have : ((r.address.getD default).country == some "US") = false :=
          beq_eq_false_iff_ne.mpr h
        simp [this]
      · have : ((r.address.getD default).countrySubdivision == some "MN") = false :=
          beq_eq_false_iff_ne.mpr h
        simp [this]
    rcases hl : (r.position.getD default).lat with _ | la <;>
      rcases hg : (r.position.getD default).lng with _ | ln <;>
        simp [processMatch, hl, hg, hb, rowLookup_successRow_senate,
          rowLookup_successRow_house, ovs]
  · intro geos sc d hsc hne hok
    simp only [getCensusLegislativeDistricts, hsc, if_neg hne] at hok
    cases hok
    rfl

/-- Witness for the amended C2: the Madison match gets null district
fields, and a resolver response resolving Missouri (state code `"29"`)
carries the sentinel. -/
theorem c2_amended_witness :
    ((resWI.address.getD default).country ≠ some "US"
      ∨ (resWI.address.getD default).countrySubdivision ≠ some "MN")
    ∧ rowLookup "state_senate_district" (processMatch censusMN (some "w") resWI) = some PyVal.none
    ∧ rowLookup "state_house_district" (processMatch censusMN (some "w") resWI) = some PyVal.none
    ∧ censusStateCode geosMO = Except.ok (some "29")
    ∧ getCensusLegislativeDistricts (CensusResp.ok (some geosMO)) =
        Except.ok { senate := some "Not Minnesota", house := none }
    ∧ Districts.senate { senate := some "Not Minnesota", house := none } = some "Not Minnesota" :=
  ⟨by decide,
   (c2_amended.1 censusMN (some "w") resWI (by decide)).1,
   (c2_amended.1 censusMN (some "w") resWI (by decide)).2,
   rfl, rfl,
   c2_amended.2 geosMO (some "29") { senate := some "Not Minnesota", house := none }
     rfl (by decide) rfl⟩

/-! ## Claim C5 -/

/-- Claim C5: the row loop appends exactly one result per input row, in
input order — the `i`-th output row is exactly what processing the
`i`-th address in the state reached after the first `i` rows produces —
and a row whose processing raises (`exc i`) contributes the all-null
row without aborting the batch. -/
theorem c5_row_order (azure : Option String → Option AzureResult)
    (census : Int → Int → Except Unit Districts) (exc : Nat → Bool)
    (addrs : List (Option String)) (c0 : Cache) :
    (runBatch azure census exc addrs c0).1.length = addrs.length
    ∧ ∀ (i : Nat) (a : Option String), addrs[i]? = some a →
        (runBatch azure census exc addrs c0).1[i]? =
          some (if exc i then emptyRow a
                else (getResults azure census
                        (runBatch azure census exc (addrs.take i) c0).2.1 a).1) := by
  induction addrs generalizing exc c0 with
  | nil =>
    refine ⟨rfl, ?_⟩
    intro i a h
    simp at h
  | cons a rest ih =>
    refine ⟨?_, ?_⟩
    · simp only [runBatch, List.length_cons]
      exact congrArg (· + 1) (ih (fun n => exc (n + 1)) _).1
    · intro i a' h
      cases i with
      | zero =>
        simp only [List.getElem?_cons_zero, Option.some.injEq] at h
        subst h
        simp only [runBatch, List.take_zero, List.getElem?_cons_zero]
        cases hexc : exc 0 <;> simp [hexc]
      | succ i =>
        simp only [List.getElem?_cons_succ] at h
        have hr := (ih (fun n => exc (n + 1))
          (if exc 0 then (emptyRow a, c0, []) else getResults azure census c0 a).2.1).2 i a' h
        simp only [runBatch, List.getElem?_cons_succ, List.take_succ_cons]
        exact hr

/-- Witness fixtures: a client that never matches, a resolver that
returns empty districts, a row loop where the second row raises. -/
def azNone : Option String → Option AzureResult := fun _ => none

/-- A resolver oracle returning empty districts. -/
def cenOk : Int → Int → Except Unit Districts := fun _ _ => Except.ok {}

/-- An exception oracle making exactly row 1 raise. -/
def excSecond : Nat → Bool := fun n => n == 1

/-- An exception oracle where no row raises. -/
def excNever : Nat → Bool := fun _ => false

/-- Witness for C5 at a concrete two-row batch whose second row
raises: two rows out, and row 1 is the all-null exception row. -/
theorem c5_witness :
    (runBatch azNone cenOk excSecond [some "A", none] []).1.length = 2
    ∧ (runBatch azNone cenOk excSecond [some "A", none] []).1[1]? =
        some (if excSecond 1 then emptyRow none
              else (getResults azNone cenOk
                      (runBatch azNone cenOk excSecond ([some "A", none].take 1) []).2.1 none).1) :=
  ⟨(c5_row_order azNone cenOk excSecond [some "A", none] []).1,
   (c5_row_order azNone cenOk excSecond [some "A", none] []).2 1 none rfl⟩

/-! ## Claim C6 -/

/-- Lookup after a dict assignment of the same key. -/
theorem cacheLookup_insert_self (c : Cache) (k : String) (r : Row) :
    cacheLookup (cacheInsert c k r) k = some r := by
  simp [cacheLookup, cacheInsert, List.find?]

/-- Lookup after a dict assignment of a different key. -/
theorem cacheLookup_insert_of_ne (c : Cache) (k k2 : String) (r : Row) (h : k2 ≠ k) :
    cacheLookup (cacheInsert c k r) k2 = cacheLookup c k2 := by
  have : ((k, r).1 == k2) = false := beq_eq_false_iff_ne.mpr (Ne.symm h)
  simp [cacheLookup, cacheInsert, List.find?, this]

/-- The three paths of `get_results`: blank short-circuit, cache hit,
cache miss — with the call log and cache update of each. -/
theorem getResults_cases (azure : Option String → Option AzureResult)
    (census : Int → Int → Except Unit Districts) (c : Cache) (a : Option String) :
    (blankKey (normKey a) = true
       ∧ getResults azure census c a = (emptyRow a, cacheInsert c (normKey a) (emptyRow a), []))
    ∨ (blankKey (normKey a) = false ∧ ∃ r, cacheLookup c (normKey a) = some r
       ∧ getResults azure census c a = (r, c, []))
    ∨ (blankKey (normKey a) = false ∧ cacheLookup c (normKey a) = none
       ∧ ∃ row, getResults azure census c a = (row, cacheInsert c (normKey a) row, [a])) := by
  by_cases hb : blankKey (normKey a) = true
  · exact Or.inl ⟨hb, by simp [getResults, hb]⟩
  · have hb' : blankKey (normKey a) = false := by simpa using hb
    cases hl : cacheLookup c (normKey a) with
    | some r =>
      exact Or.inr (Or.inl ⟨hb', r, rfl, by simp [getResults, hb', hl]⟩)
    | none =>
      refine Or.inr (Or.inr ⟨hb', rfl, ?_⟩)
      refine ⟨(match azure a with
        | some r => processMatch census a r
        | none => emptyRow a), ?_⟩
      simp [getResults, hb', hl]

/-- No calls in `countCalls`' empty log. -/
theorem countCalls_nil (k : String) : countCalls k [] = 0 := rfl

/-- `countCalls` distributes over appended logs. -/
theorem countCalls_append (k : String) (xs ys : List (Option String)) :
    countCalls k (xs ++ ys) = countCalls k xs + countCalls k ys := by
  simp [countCalls, List.filter_append]

/-- A one-call log for the key counts one. -/
theorem countCalls_single_eq (k : String) (a : Option String) (h : normKey a = k) :
    countCalls k [a] = 1 := by
  simp [countCalls, h]

/-- A one-call log for another key counts zero. -/
theorem countCalls_single_ne (k : String) (a : Option String) (h : ¬normKey a = k) :
    countCalls k [a] = 0 := by
  simp [countCalls, h]

/-- Unfolding the row loop at a row whose processing raises. -/
theorem runBatch_cons_exc (azure : Option String → Option AzureResult)
    (census : Int → Int → Except Unit Districts) (exc : Nat → Bool)
    (a : Option String) (rest : List (Option String)) (c : Cache) (he : exc 0 = true) :
    runBatch azure census exc (a :: rest) c =
      (emptyRow a :: (runBatch azure census (fun n => exc (n + 1)) rest c).1,
       (runBatch azure census (fun n => exc (n + 1)) rest c).2.1,
       (runBatch azure census (fun n => exc (n + 1)) rest c).2.2) := by
  simp [runBatch, he]

/-- Unfolding the row loop at a row that processes normally. -/
theorem runBatch_cons_ok (azure : Option String → Option AzureResult)
    (census : Int → Int → Except Unit Districts) (exc : Nat → Bool)
    (a : Option String) (rest : List (Option String)) (c : Cache) (he : exc 0 = false) :
    runBatch azure census exc (a :: rest) c =
      ((getResults azure census c a).1 ::
         (runBatch azure census (fun n => exc (n + 1)) rest (getResults azure census c a).2.1).1,
       (runBatch azure census (fun n => exc (n + 1)) rest (getResults azure census c a).2.1).2.1,
       (getResults azure census c a).2.2 ++
         (runBatch azure census (fun n => exc (n + 1)) rest (getResults azure census c a).2.1).2.2) := by
  simp [runBatch, he]

/-- Once a non-blank key is in the cache, the rest of the batch makes
no further client call whose address normalizes to it. -/
theorem runBatch_calls_cached (azure : Option String → Option AzureResult)
    (census : Int → Int → Except Unit Districts) (k : String) (hk : blankKey k = false) :
    ∀ (addrs : List (Option String)) (exc : Nat → Bool) (c : Cache),
      (cacheLookup c k).isSome = true →
      countCalls k (runBatch azure census exc addrs c).2.2 = 0 := by
  intro addrs
  induction addrs with
  | nil => intro exc c _; rfl
  | cons a rest ih =>
    intro exc c h
    cases he : exc 0 with
    | true =>
      rw [runBatch_cons_exc azure census exc a rest c he]
      exact ih (fun n => exc (n + 1)) c h
    | false =>
      rw [runBatch_cons_ok azure census exc a rest c he]
      rcases getResults_cases azure census c a with ⟨hb, heq⟩ | ⟨hb, r, hl, heq⟩ |
        ⟨hb, hl, row, heq⟩
      · have hne : ¬normKey a = k := by
          intro hcontra
          rw [hcontra, hk] at hb
          exact Bool.false_ne_true hb
        rw [heq]
        rw [countCalls_append, countCalls_nil]
        have h2 : (cacheLookup (cacheInsert c (normKey a) (emptyRow a)) k).isSome = true := by
          rw [cacheLookup_insert_of_ne c (normKey a) k (emptyRow a) (fun hh => hne hh.symm)]
          exact h
        rw [ih (fun n => exc (n + 1)) _ h2]
      · rw [heq, countCalls_append, countCalls_nil, ih (fun n => exc (n + 1)) c h]
      · have hne : ¬normKey a = k := by
          intro hcontra
          rw [hcontra] at hl
          rw [hl] at h
          simp at h
        rw [heq, countCalls_append, countCalls_single_ne k a hne]
        have h2 : (cacheLookup (cacheInsert c (normKey a) row) k).isSome = true := by
          rw [cacheLookup_insert_of_ne c (normKey a) k row (fun hh => hne hh.symm)]
          exact h
        rw [ih (fun n => exc (n + 1)) _ h2]

/-- Over a whole batch, at most one client call normalizes to any
given non-blank key. -/
theorem runBatch_calls_le_one (azure : Option String → Option AzureResult)
    (census : Int → Int → Except Unit Districts) (k : String) (hk : blankKey k = false) :
    ∀ (addrs : List (Option String)) (exc : Nat → Bool) (c : Cache),
      countCalls k (runBatch azure census exc addrs c).2.2 ≤ 1 := by
  intro addrs
  induction addrs with
  | nil => intro exc c; exact Nat.zero_le 1
  | cons a rest ih =>
    intro exc c
    cases he : exc 0 with
    | true =>
      rw [runBatch_cons_exc azure census exc a rest c he]
      exact ih (fun n => exc (n + 1)) c
    | false =>
      rw [runBatch_cons_ok azure census exc a rest c he]
      rcases getResults_cases azure census c a with ⟨hb, heq⟩ | ⟨hb, r, hl, heq⟩ |
        ⟨hb, hl, row, heq⟩
      · rw [heq, countCalls_append, countCalls_nil]
        exact Nat.le_trans (Nat.le_of_eq (Nat.zero_add _)) (ih (fun n => exc (n + 1)) _)
      · rw [heq, countCalls_append, countCalls_nil]
        exact Nat.le_trans (Nat.le_of_eq (Nat.zero_add _)) (ih (fun n => exc (n + 1)) _)
      · by_cases hak : normKey a = k
        · rw [heq, countCalls_append, countCalls_single_eq k a hak]
          have h2 : (cacheLookup (cacheInsert c (normKey a) row) k).isSome = true := by
            rw [hak, cacheLookup_insert_self]
            rfl
          rw [runBatch_calls_cached azure census k hk rest (fun n => exc (n + 1)) _ h2]
        · rw [heq, countCalls_append, countCalls_single_ne k a hak]
          exact Nat.le_trans (Nat.le_of_eq (Nat.zero_add _)) (ih (fun n => exc (n + 1)) _)

/-- Claim C6: (1) within one run, for each non-blank normalized key
the geocoding client is invoked at most once; (2) a lookup of an
already-cached non-blank key returns the previously cached row
unchanged, with no cache change and no client call; (3) the cache
grows monotonically — a key once present is never evicted by any later
`get_results`. -/
theorem c6_cache_at_most_once :
    (∀ (azure : Option String → Option AzureResult)
       (census : Int → Int → Except Unit Districts)
       (exc : Nat → Bool) (addrs : List (Option String)) (c0 : Cache) (k : String),
       blankKey k = false →
       countCalls k (runBatch azure census exc addrs c0).2.2 ≤ 1)
    ∧ (∀ (azure : Option String → Option AzureResult)
       (census : Int → Int → Except Unit Districts)
       (c : Cache) (a : Option String) (r : Row),
       blankKey (normKey a) = false → cacheLookup c (normKey a) = some r →
       getResults azure census c a = (r, c, []))
    ∧ (∀ (azure : Option String → Option AzureResult)
       (census : Int → Int → Except Unit Districts)
       (c : Cache) (a : Option String) (k : String) (r : Row),
       cacheLookup c k = some r →
       ∃ r2, cacheLookup ((getResults azure census c a).2.1) k = some r2) := by
  refine ⟨fun azure census exc addrs c0 k hk =>
      runBatch_calls_le_one azure census k hk addrs exc c0,
    fun azure census c a r hb hl => by simp [getResults, hb, hl],
    fun azure census c a k r hl => ?_⟩
  rcases getResults_cases azure census c a with ⟨hb, heq⟩ | ⟨hb, r2, hl2, heq⟩ |
    ⟨hb, hl2, row, heq⟩
  · rw [heq]
    by_cases hak : k = normKey a
    · exact ⟨emptyRow a, by rw [hak, cacheLookup_insert_self]⟩
    · exact ⟨r, by rw [cacheLookup_insert_of_ne c (normKey a) k (emptyRow a) hak]; exact hl⟩
  · exact ⟨r, by rw [heq]; exact hl⟩
  · rw [heq]
    by_cases hak : k = normKey a
    · exact ⟨row, by rw [hak, cacheLookup_insert_self]⟩
    · exact ⟨r, by rw [cacheLookup_insert_of_ne c (normKey a) k row hak]; exact hl⟩

/-- A cache already holding the key of the repeated address. -/
def cacheFix : Cache := [("5 oak st", emptyRow (some "x"))]

/-- Witness for C6: a batch repeating one address (with different
spacing and case) makes at most one client call for its key; a lookup
against a pre-populated cache returns the cached row unchanged; and an
unrelated `get_results` never evicts an existing key. -/
theorem c6_witness :
    blankKey "5 oak st" = false
    ∧ countCalls "5 oak st"
        (runBatch azNone cenOk excNever [some "5 Oak St", some "5  OAK  St"] []).2.2 ≤ 1
    ∧ blankKey (normKey (some "5 Oak St")) = false
    ∧ cacheLookup cacheFix (normKey (some "5 Oak St")) = some (emptyRow (some "x"))
    ∧ getResults azNone cenOk cacheFix (some "5 Oak St") = (emptyRow (some "x"), cacheFix, [])
    ∧ ∃ r2, cacheLookup ((getResults azNone cenOk cacheFix (some "z")).2.1) "5 oak st" = some r2 :=
  ⟨by decide,
   c6_cache_at_most_once.1 azNone cenOk excNever [some "5 Oak St", some "5  OAK  St"] []
     "5 oak st" (by decide),
   by decide, by decide,
   c6_cache_at_most_once.2.1 azNone cenOk cacheFix (some "5 Oak St") (emptyRow (some "x"))
     (by decide) (by decide),
   c6_cache_at_most_once.2.2 azNone cenOk cacheFix (some "z") "5 oak st" (emptyRow (some "x"))
     (by decide)⟩

/-! ## Claim C7: normalization idempotence

The designator-stripping pass can splice a designator word next to a
following token (removing `" # 1"` from `"a Apt # 1 b"` leaves
`"a Apt b"`), so a second `normalize` can strip further.  The claim is
therefore refuted; the amended claim proves idempotence whenever the
stripping pass leaves the normalized form unchanged.  The invariants:
a stripped string has non-whitespace edges (`NoEdge`), a collapsed
string has single-space runs only (`GoodWS`), and both survive
lowering. -/

/-- `pyLower` when the character has no uppercase entry. -/
theorem pyLower_eq_of_find_none {c : Char}
    (h : casePairs.find? (fun p => p.1 == c) = none) : pyLower c = c := by
  unfold pyLower
  rw [h]
  rfl

/-- `pyLower` at a pair of the case table. -/
theorem pyLower_eq_of_find_some {c : Char} {pr : Char × Char}
    (h : casePairs.find? (fun p => p.1 == c) = some pr) : pyLower c = pr.2 := by
  unfold pyLower
  rw [h]
  rfl

/-- Lowering preserves the whitespace class. -/
theorem pySpace_pyLower (c : Char) : pySpace (pyLower c) = pySpace c := by
  cases hf : casePairs.find? (fun p => p.1 == c) with
  | none => rw [pyLower_eq_of_find_none hf]
  | some pr =>
    have hm := List.mem_of_find?_eq_some hf
    have hc : pr.1 = c := by simpa using List.find?_some hf
    rw [pyLower_eq_of_find_some hf, ← hc]
    have hall : ∀ p ∈ casePairs, pySpace p.2 = pySpace p.1 := by decide
    exact hall pr hm

/-- Lowering preserves the `[\w\-]` class. -/
theorem isWordHy_pyLower (c : Char) : isWordHy (pyLower c) = isWordHy c := by
  cases hf : casePairs.find? (fun p => p.1 == c) with
  | none => rw [pyLower_eq_of_find_none hf]
  | some pr =>
    have hm := List.mem_of_find?_eq_some hf
    have hc : pr.1 = c := by simpa using List.find?_some hf
    rw [pyLower_eq_of_find_some hf, ← hc]
    have hall : ∀ p ∈ casePairs, isWordHy p.2 = isWordHy p.1 := by decide
    exact hall pr hm

/-- Lowering is idempotent on characters. -/
theorem pyLower_pyLower (c : Char) : pyLower (pyLower c) = pyLower c := by
  cases hf : casePairs.find? (fun p => p.1 == c) with
  | none => rw [pyLower_eq_of_find_none hf, pyLower_eq_of_find_none hf]
  | some pr =>
    have hm := List.mem_of_find?_eq_some hf
    rw [pyLower_eq_of_find_some hf]
    have hnone : casePairs.find? (fun p => p.1 == pr.2) = none := by
      rw [List.find?_eq_none]
      intro q hq
      have hall : ∀ q2 ∈ casePairs, ∀ pr2 ∈ casePairs, (q2.1 == pr2.2) = false := by decide
      simp [hall q hq pr hm]
    exact pyLower_eq_of_find_none hnone

/-- Lowering a list is idempotent. -/
theorem lowerL_lowerL (l : List Char) : lowerL (lowerL l) = lowerL l := by
  unfold lowerL
  rw [List.map_map]
  exact List.map_congr_left (fun c _ => pyLower_pyLower c)

/-- Both edges of the list are non-whitespace. -/
def NoEdge (l : List Char) : Prop :=
  (∀ c, l.head? = some c → pySpace c = false)
  ∧ (∀ c, l.getLast? = some c → pySpace c = false)

/-- The head surviving `dropWhile` fails the predicate. -/
theorem head_dropWhile (p : Char → Bool) :
    ∀ (l : List Char) (c : Char), (l.dropWhile p).head? = some c → p c = false := by
  intro l
  induction l with
  | nil => intro c h; simp [List.dropWhile] at h
  | cons a t ih =>
    intro c h
    by_cases hp : p a = true
    · rw [List.dropWhile_cons_of_pos hp] at h
      exact ih c h
    · have hp' : p a = false := by simpa using hp
      rw [List.dropWhile_cons_of_neg (by simp [hp'])] at h
      simp only [List.head?_cons, Option.some.injEq] at h
      rw [← h]
      exact hp'

/-- `dropWhile` is the identity when the head already fails the
predicate. -/
theorem dropWhile_eq_self_of_head (p : Char → Bool) (l : List Char)
    (h : ∀ c, l.head? = some c → p c = false) : l.dropWhile p = l := by
  cases l with
  | nil => rfl
  | cons a t =>
    have := h a rfl
    rw [List.dropWhile_cons_of_neg (by simp [this])]

/-- A non-empty `dropWhile` keeps the last element. -/
theorem getLast?_dropWhile (p : Char → Bool) :
    ∀ l : List Char, l.dropWhile p ≠ [] → (l.dropWhile p).getLast? = l.getLast? := by
  intro l
  induction l with
  | nil => intro h; simp [List.dropWhile] at h
  | cons a t ih =>
    intro h
    by_cases hp : p a = true
    · rw [List.dropWhile_cons_of_pos hp] at h ⊢
      have ht : t ≠ [] := by
        intro he
        rw [he] at h
        exact h rfl
      cases t with
      | nil => exact absurd rfl ht
      | cons b t2 => rw [ih h, List.getLast?_cons_cons]
    · have hp' : p a = false := by simpa using hp
      rw [List.dropWhile_cons_of_neg (by simp [hp'])]

/-- A stripped string has non-whitespace edges. -/
theorem noEdge_stripL (l : List Char) : NoEdge (stripL l) := by
  unfold stripL
  constructor
  · intro c h
    rw [List.head?_reverse] at h
    by_cases hB : ((l.dropWhile pySpace).reverse.dropWhile pySpace) = []
    · rw [hB] at h
      simp at h
    · rw [getLast?_dropWhile pySpace _ hB, List.getLast?_reverse] at h
      exact head_dropWhile pySpace l c h
  · intro c h
    rw [List.getLast?_reverse] at h
    exact head_dropWhile pySpace _ c h

/-- Stripping fixes a string with non-whitespace edges. -/
theorem stripL_eq_self (l : List Char) (h : NoEdge l) : stripL l = l := by
  unfold stripL
  rw [dropWhile_eq_self_of_head pySpace l h.1]
  rw [dropWhile_eq_self_of_head pySpace l.reverse
    (fun c hc => h.2 c (by rwa [List.head?_reverse] at hc))]
  exact List.reverse_reverse l

/-- Non-whitespace edges survive lowering. -/
theorem noEdge_lowerL (l : List Char) (h : NoEdge l) : NoEdge (lowerL l) := by
  constructor
  · intro c hc
    cases l with
    | nil => simp [lowerL] at hc
    | cons a t =>
      simp only [lowerL, List.map_cons, List.head?_cons, Option.some.injEq] at hc
      rw [← hc, pySpace_pyLower]
      exact h.1 a rfl
  · intro c hc
    unfold lowerL at hc
    rw [← List.head?_reverse, ← List.map_reverse] at hc
    cases hr : l.reverse with
    | nil => rw [hr] at hc; simp at hc
    | cons a t =>
      rw [hr] at hc
      simp only [List.map_cons, List.head?_cons, Option.some.injEq] at hc
      rw [← hc, pySpace_pyLower]
      apply h.2
      rw [← List.head?_reverse, hr]
      rfl

/-- Every whitespace character is a plain space and no two whitespace
characters are adjacent: the shape of collapsed output. -/
def GoodWS (l : List Char) : Prop :=
  (∀ c ∈ l, pySpace c = true → c = ' ')
  ∧ l.Chain' (fun a b => ¬(pySpace a = true ∧ pySpace b = true))

/-- Inside a run, the collapser's next emitted character is
non-whitespace. -/
theorem head_collapseGo_true :
    ∀ (l : List Char) (c : Char), (collapseGo true l).head? = some c → pySpace c = false := by
  intro l
  induction l with
  | nil => intro c h; simp [collapseGo] at h
  | cons a t ih =>
    intro c h
    by_cases ha : pySpace a = true
    · rw [show collapseGo true (a :: t) = collapseGo true t by simp [collapseGo, ha]] at h
      exact ih c h
    · have ha' : pySpace a = false := by simpa using ha
      rw [show collapseGo true (a :: t) = a :: collapseGo false t by
        simp [collapseGo, ha']] at h
      simp only [List.head?_cons, Option.some.injEq] at h
      rw [← h]
      exact ha'

/-- Collapsed output is`GoodWS`, from either flag state. -/
theorem goodWS_collapseGo : ∀ (l : List Char) (b : Bool), GoodWS (collapseGo b l) := by
  intro l
  induction l with
  | nil =>
    intro b
    exact ⟨by simp [collapseGo], by simp [collapseGo, List.chain'_nil]⟩
  | cons a t ih =>
    intro b
    by_cases ha : pySpace a = true
    · cases b with
      | true =>
        rw [show collapseGo true (a :: t) = collapseGo true t by simp [collapseGo, ha]]
        exact ih true
      | false =>
        rw [show collapseGo false (a :: t) = ' ' :: collapseGo true t by
          simp [collapseGo, ha]]
        constructor
        · intro c hc hsp
          rcases List.mem_cons.mp hc with h1 | h1
          · exact h1
          · exact (ih true).1 c h1 hsp
        · rw [List.chain'_cons']
          refine ⟨?_, (ih true).2⟩
          intro y hy
          intro hcontra
          exact Bool.false_ne_true ((head_collapseGo_true t y hy) ▸ hcontra.2)
    · have ha' : pySpace a = false := by simpa using ha
      rw [show collapseGo b (a :: t) = a :: collapseGo false t by
        cases b <;> simp [collapseGo, ha']]
      constructor
      · intro c hc hsp
        rcases List.mem_cons.mp hc with h1 | h1
        · rw [h1] at hsp
          exact absurd hsp (by simp [ha'])
        · exact (ih false).1 c h1 hsp
      · rw [List.chain'_cons']
        refine ⟨?_, (ih false).2⟩
        intro y _
        intro hcontra
        exact Bool.false_ne_true (ha' ▸ hcontra.1)

/-- `GoodWS` restricts to the tail. -/
theorem goodWS_tail {a : Char} {t : List Char} (h : GoodWS (a :: t)) : GoodWS t :=
  ⟨fun c hc => h.1 c (List.mem_cons_of_mem a hc), h.2.tail⟩

/-- Collapsing fixes a `GoodWS` string. -/
theorem collapseL_eq_self : ∀ l : List Char, GoodWS l → collapseGo false l = l := by
  intro l
  induction l with
  | nil => intro _; rfl
  | cons a t ih =>
    intro h
    by_cases ha : pySpace a = true
    · have haSp : a = ' ' := h.1 a (List.mem_cons_self a t) ha
      rw [show collapseGo false (a :: t) = ' ' :: collapseGo true t by simp [collapseGo, ha]]
      have hT : collapseGo true t = collapseGo false t := by
        cases t with
        | nil => rfl
        | cons d t2 =>
          have hd : pySpace d = false := by
            have := (List.chain'_cons'.mp h.2).1 d rfl
            by_cases hdd : pySpace d = true
            · exact absurd ⟨ha, hdd⟩ this
            · simpa using hdd
          simp [collapseGo, hd]
      rw [hT, ih (goodWS_tail h), haSp]
    · have ha' : pySpace a = false := by simpa using ha
      rw [show collapseGo false (a :: t) = a :: collapseGo false t by simp [collapseGo, ha']]
      rw [ih (goodWS_tail h)]

/-- `GoodWS` survives lowering. -/
theorem goodWS_lowerL (l : List Char) (h : GoodWS l) : GoodWS (lowerL l) := by
  constructor
  · intro c hc hsp
    rcases List.mem_map.mp hc with ⟨d, hd, hcd⟩
    rw [← hcd] at hsp ⊢
    rw [pySpace_pyLower] at hsp
    rw [h.1 d hd hsp]
    rfl
  · unfold lowerL
    rw [List.chain'_map]
    exact h.2.imp (fun a b hr => by
      rw [pySpace_pyLower, pySpace_pyLower]
      exact hr)

/-- `GoodWS` survives stripping. -/
theorem goodWS_stripL (l : List Char) (h : GoodWS l) : GoodWS (stripL l) := by
  have step : ∀ m : List Char, GoodWS m → GoodWS (m.dropWhile pySpace) := by
    intro m hm
    refine ⟨fun c hc => hm.1 c ((List.dropWhile_suffix pySpace).subset hc), ?_⟩
    exact hm.2.suffix (List.dropWhile_suffix pySpace)
  have rev : ∀ m : List Char, GoodWS m → GoodWS m.reverse := by
    intro m hm
    refine ⟨fun c hc => hm.1 c (List.mem_reverse.mp hc), ?_⟩
    rw [List.chain'_reverse]
    exact hm.2.imp (fun a b hr hc => hr ⟨hc.2, hc.1⟩)
  exact rev _ (step _ (rev _ (step _ h)))

/-- Claim C7, counterexample: normalization is not idempotent —
removing `" # 1"` from `"a Apt # 1 b"` splices `"Apt"` next to `"b"`,
so the first pass gives `"a apt b"` and a second pass strips again,
giving `"a"`. -/
theorem c7_counterexample :
    pyNormalize (pyNormalize "a Apt # 1 b") ≠ pyNormalize "a Apt # 1 b" := by
  decide

/-- Claim C7, amended: `normalize` is idempotent on every input whose
normalized form the unit-designator pass leaves unchanged (typical
addresses); in general a second application can only differ by that
pass stripping further. -/
theorem c7_idempotent_when_stripped_fixed (s : String)
    (h : subUnitsStr (pyNormalize s) = pyNormalize s) :
    pyNormalize (pyNormalize s) = pyNormalize s := by
  have hd : subUnits (pyNormalize s).data = (pyNormalize s).data := congrArg String.data h
  have hdata : (pyNormalize s).data = lowerL (stripL (collapseL (subUnits (stripL s.data)))) :=
    rfl
  have hNE : NoEdge (pyNormalize s).data := by
    rw [hdata]
    exact noEdge_lowerL _ (noEdge_stripL _)
  have h1 : stripL (pyNormalize s).data = (pyNormalize s).data := stripL_eq_self _ hNE
  have hGW : GoodWS (pyNormalize s).data := by
    rw [hdata]
    exact goodWS_lowerL _ (goodWS_stripL _ (goodWS_collapseGo _ false))
  have h3 : collapseL (pyNormalize s).data = (pyNormalize s).data := collapseL_eq_self _ hGW
  have h5 : lowerL (pyNormalize s).data = (pyNormalize s).data := by
    rw [hdata]
    exact lowerL_lowerL _
  show (⟨normalizeL (pyNormalize s).data⟩ : String) = pyNormalize s
  have hfix : normalizeL (pyNormalize s).data = (pyNormalize s).data := by
    unfold normalizeL
    rw [h1, hd, show collapseL (pyNormalize s).data = (pyNormalize s).data from h3, h1, h5]
  rw [hfix]

/-- Witness for the amended C7 at a typical address: the stripping
pass fixes its normalized form, so normalization is idempotent
there. -/
theorem c7_witness :
    subUnitsStr (pyNormalize "123 Main St Apt 4") = pyNormalize "123 Main St Apt 4"
    ∧ pyNormalize (pyNormalize "123 Main St Apt 4") = pyNormalize "123 Main St Apt 4" :=
  ⟨by decide, c7_idempotent_when_stripped_fixed "123 Main St Apt 4" (by decide)⟩

/-! ## Claim C8: case-insensitivity of normalization

The key machinery: every stage of the normalizer commutes with
`str.lower`, because the designator matching is case-insensitive and
lowering preserves the `\s` and `[\w\-]` classes. -/

/-- `dropWhile` commutes with lowering for a class the lowering
preserves. -/
theorem dropWhile_lowerL (p : Char → Bool) (hp : ∀ c, p (pyLower c) = p c) :
    ∀ l : List Char, (lowerL l).dropWhile p = lowerL (l.dropWhile p) := by
  intro l
  induction l with
  | nil => rfl
  | cons a t ih =>
    show (pyLower a :: lowerL t).dropWhile p = lowerL ((a :: t).dropWhile p)
    by_cases ha : p a = true
    · rw [List.dropWhile_cons_of_pos (by rw [hp]; exact ha),
        List.dropWhile_cons_of_pos ha]
      exact ih
    · have ha' : p a = false := by simpa using ha
      rw [List.dropWhile_cons_of_neg (by rw [hp]; simp [ha']),
        List.dropWhile_cons_of_neg (by simp [ha'])]
      rfl

/-- Case-insensitive literal matching commutes with lowering. -/
theorem stripPrefCI_lower : ∀ (pat l : List Char),
    stripPrefCI pat (lowerL l) = (stripPrefCI pat l).map lowerL := by
  intro pat
  induction pat with
  | nil => intro l; rfl
  | cons p ps ih =>
    intro l
    cases l with
    | nil => rfl
    | cons c cs =>
      show stripPrefCI (p :: ps) (pyLower c :: lowerL cs) = _
      have he : eqCI p (pyLower c) = eqCI p c := by
        unfold eqCI
        rw [pyLower_pyLower]
      by_cases h : eqCI p c = true
      · simp only [stripPrefCI, he, h, if_true]
        exact ih cs
      · have h' : eqCI p c = false := by simpa using h
        simp only [stripPrefCI, he, h', Bool.false_eq_true, if_false]
        rfl

/-- The ordered designator alternation commutes with lowering. -/
theorem tryDesig_lower (l : List Char) :
    tryDesig (lowerL l) = (tryDesig l).map lowerL := by
  unfold tryDesig
  rw [stripPrefCI_lower, stripPrefCI_lower, stripPrefCI_lower, stripPrefCI_lower,
    stripPrefCI_lower, stripPrefCI_lower]
  cases stripPrefCI "Apt".data l with
  | some r => rfl
  | none =>
  cases stripPrefCI "Apartment".data l with
  | some r => rfl
  | none =>
  cases stripPrefCI "Unit".data l with
  | some r => rfl
  | none =>
  cases stripPrefCI "Suite".data l with
  | some r => rfl
  | none =>
  cases stripPrefCI "Ste".data l with
  | some r => rfl
  | none => rfl

/-- One pattern match commutes with lowering. -/
theorem tryMatch_lower (l : List Char) :
    tryMatch (lowerL l) = (tryMatch l).map lowerL := by
  cases l with
  | nil => rfl
  | cons c t =>
    show tryMatch (pyLower c :: lowerL t) = _
    by_cases hc : pySpace c = true
    · rw [show tryMatch (pyLower c :: lowerL t) =
          (match tryDesig ((lowerL t).dropWhile pySpace) with
           | none => none
           | some rest2 =>
             match rest2.dropWhile pySpace with
             | [] => none
             | d :: _ => if isWordHy d then
                 some ((rest2.dropWhile pySpace).dropWhile isWordHy) else none) by
        simp [tryMatch, pySpace_pyLower, hc]]
      rw [show tryMatch (c :: t) =
          (match tryDesig (t.dropWhile pySpace) with
           | none => none
           | some rest2 =>
             match rest2.dropWhile pySpace with
             | [] => none
             | d :: _ => if isWordHy d then
                 some ((rest2.dropWhile pySpace).dropWhile isWordHy) else none) by
        simp [tryMatch, hc]]
      rw [dropWhile_lowerL pySpace pySpace_pyLower t, tryDesig_lower]
      cases tryDesig (t.dropWhile pySpace) with
      | none => rfl
      | some rest2 =>
        show (match (lowerL rest2).dropWhile pySpace with
           | [] => none
           | d :: _ => if isWordHy d then
               some (((lowerL rest2).dropWhile pySpace).dropWhile isWordHy) else none) =
          Option.map lowerL
            (match rest2.dropWhile pySpace with
             | [] => none
             | d :: _ => if isWordHy d then
                 some ((rest2.dropWhile pySpace).dropWhile isWordHy) else none)
        rw [dropWhile_lowerL pySpace pySpace_pyLower rest2]
        cases hr : rest2.dropWhile pySpace with
        | nil => rfl
        | cons d t3 =>
          show (if isWordHy (pyLower d) then
              some ((lowerL (d :: t3)).dropWhile isWordHy) else none) =
            Option.map lowerL
              (if isWordHy d then some ((d :: t3).dropWhile isWordHy) else none)
          rw [isWordHy_pyLower]
          by_cases hd : isWordHy d = true
          · simp only [hd, if_true, Option.map_some']
            rw [dropWhile_lowerL isWordHy isWordHy_pyLower (d :: t3)]
          · have hd' : isWordHy d = false := by simpa using hd
            simp [hd']
    · have hc' : pySpace c = false := by simpa using hc
      rw [show tryMatch (pyLower c :: lowerL t) = none by
          simp [tryMatch, pySpace_pyLower, hc'],
        show tryMatch (c :: t) = none by simp [tryMatch, hc']]
      rfl

/-- Literal matching only shortens the input. -/
theorem stripPrefCI_length : ∀ (pat l r : List Char),
    stripPrefCI pat l = some r → r.length ≤ l.length := by
  intro pat
  induction pat with
  | nil =>
    intro l r h
    cases h
    exact Nat.le_refl _
  | cons p ps ih =>
    intro l r h
    cases l with
    | nil => cases h
    | cons c cs =>
      by_cases he : eqCI p c = true
      · rw [show stripPrefCI (p :: ps) (c :: cs) = stripPrefCI ps cs by
          simp [stripPrefCI, he]] at h
        exact Nat.le_succ_of_le (ih cs r h)
      · have he' : eqCI p c = false := by simpa using he
        rw [show stripPrefCI (p :: ps) (c :: cs) = none by
          simp [stripPrefCI, he']] at h
        cases h

/-- The designator alternation only shortens the input. -/
theorem tryDesig_length (l r : List Char) (h : tryDesig l = some r) :
    r.length ≤ l.length := by
  unfold tryDesig at h
  cases h1 : stripPrefCI "Apt".data l with
  | some r1 =>
    rw [h1] at h
    cases h
    exact stripPrefCI_length _ l r h1
  | none =>
  rw [h1] at h
  cases h2 : stripPrefCI "Apartment".data l with
  | some r1 =>
    rw [h2] at h
    cases h
    exact stripPrefCI_length _ l r h2
  | none =>
  rw [h2] at h
  cases h3 : stripPrefCI "Unit".data l with
  | some r1 =>
    rw [h3] at h
    cases h
    exact stripPrefCI_length _ l r h3
  | none =>
  rw [h3] at h
  cases h4 : stripPrefCI "Suite".data l with
  | some r1 =>
    rw [h4] at h
    cases h
    exact stripPrefCI_length _ l r h4
  | none =>
  rw [h4] at h
  cases h5 : stripPrefCI "Ste".data l with
  | some r1 =>
    rw [h5] at h
    cases h
    exact stripPrefCI_length _ l r h5
  | none =>
  rw [h5] at h
  exact stripPrefCI_length _ l r h

/-- A successful pattern match consumes at least one character. -/
theorem tryMatch_length (l r : List Char) (h : tryMatch l = some r) :
    r.length < l.length := by
  cases l with
  | nil => cases h
  | cons c t =>
    by_cases hc : pySpace c = true
    · cases hd : tryDesig (t.dropWhile pySpace) with
      | none =>
        simp [tryMatch, hc, hd] at h
      | some rest2 =>
        have hr2 : rest2.length ≤ t.length :=
          Nat.le_trans (tryDesig_length _ rest2 hd) (List.dropWhile_suffix pySpace).length_le
        cases hr : rest2.dropWhile pySpace with
        | nil =>
          simp [tryMatch, hc, hd, hr] at h
        | cons d t3 =>
          by_cases hw : isWordHy d = true
          · have hm : tryMatch (c :: t) = some (t3.dropWhile isWordHy) := by
              simp [tryMatch, hc, hd, hr, hw, List.dropWhile_cons_of_pos hw]
            rw [hm] at h
            cases h
            have h1 : (t3.dropWhile isWordHy).length ≤ t3.length :=
              (List.dropWhile_suffix isWordHy).length_le
            have h2 : t3.length < rest2.length := by
              have := congrArg List.length hr
              simp only [List.length_cons] at this
              have hle : (rest2.dropWhile pySpace).length ≤ rest2.length :=
                (List.dropWhile_suffix pySpace).length_le
              omega
            simp only [List.length_cons]
            omega
          · have hw' : isWordHy d = false := by simpa using hw
            simp [tryMatch, hc, hd, hr, hw'] at h
    · have hc' : pySpace c = false := by simpa using hc
      simp [tryMatch, hc'] at h

/-- The scanning pass commutes with lowering (with enough fuel). -/
theorem subUnitsF_lower : ∀ (n : Nat) (l : List Char), l.length ≤ n →
    subUnitsF n (lowerL l) = lowerL (subUnitsF n l) := by
  intro n
  induction n with
  | zero =>
    intro l h
    rw [List.eq_nil_of_length_eq_zero (Nat.le_zero.mp h)]
    rfl
  | succ n ih =>
    intro l h
    cases l with
    | nil => rfl
    | cons c t =>
      cases hm : tryMatch (c :: t) with
      | some r =>
        have hl' : tryMatch (pyLower c :: lowerL t) = some (lowerL r) := by
          have hcomm := tryMatch_lower (c :: t)
          rw [hm, Option.map_some'] at hcomm
          exact hcomm
        show subUnitsF (n + 1) (pyLower c :: lowerL t) = lowerL (subUnitsF (n + 1) (c :: t))
        rw [show subUnitsF (n + 1) (pyLower c :: lowerL t) = subUnitsF n (lowerL r) by
            simp [subUnitsF, hl'],
          show subUnitsF (n + 1) (c :: t) = subUnitsF n r by simp [subUnitsF, hm]]
        have hrlen : r.length ≤ n := by
          have := tryMatch_length (c :: t) r hm
          simp only [List.length_cons] at this h
          omega
        exact ih r hrlen
      | none =>
        have hl' : tryMatch (pyLower c :: lowerL t) = none := by
          have hcomm := tryMatch_lower (c :: t)
          rw [hm, Option.map_none'] at hcomm
          exact hcomm
        show subUnitsF (n + 1) (pyLower c :: lowerL t) = lowerL (subUnitsF (n + 1) (c :: t))
        rw [show subUnitsF (n + 1) (pyLower c :: lowerL t) =
            pyLower c :: subUnitsF n (lowerL t) by simp [subUnitsF, hl'],
          show subUnitsF (n + 1) (c :: t) = c :: subUnitsF n t by simp [subUnitsF, hm]]
        rw [ih t (by simp only [List.length_cons] at h; omega)]
        rfl

/-- The substitution commutes with lowering. -/
theorem subUnits_lower (l : List Char) : subUnits (lowerL l) = lowerL (subUnits l) := by
  unfold subUnits
  rw [show (lowerL l).length = l.length from List.length_map l pyLower]
  exact subUnitsF_lower l.length l (Nat.le_refl _)

/-- Whitespace collapsing commutes with lowering. -/
theorem collapseGo_lower : ∀ (l : List Char) (b : Bool),
    collapseGo b (lowerL l) = lowerL (collapseGo b l) := by
  intro l
  induction l with
  | nil => intro b; rfl
  | cons a t ih =>
    intro b
    show collapseGo b (pyLower a :: lowerL t) = _
    by_cases ha : pySpace a = true
    · cases b with
      | true =>
        rw [show collapseGo true (pyLower a :: lowerL t) = collapseGo true (lowerL t) by
            simp [collapseGo, pySpace_pyLower, ha],
          show collapseGo true (a :: t) = collapseGo true t by simp [collapseGo, ha]]
        exact ih true
      | false =>
        rw [show collapseGo false (pyLower a :: lowerL t) = ' ' :: collapseGo true (lowerL t) by
            simp [collapseGo, pySpace_pyLower, ha],
          show collapseGo false (a :: t) = ' ' :: collapseGo true t by simp [collapseGo, ha]]
        rw [ih true]
        rfl
    · have ha' : pySpace a = false := by simpa using ha
      rw [show collapseGo b (pyLower a :: lowerL t) = pyLower a :: collapseGo false (lowerL t) by
          cases b <;> simp [collapseGo, pySpace_pyLower, ha'],
        show collapseGo b (a :: t) = a :: collapseGo false t by cases b <;> simp [collapseGo, ha']]
      rw [ih false]
      rfl

/-- Stripping commutes with lowering. -/
theorem stripL_lower (l : List Char) : stripL (lowerL l) = lowerL (stripL l) := by
  unfold stripL
  rw [dropWhile_lowerL pySpace pySpace_pyLower l]
  rw [show (lowerL (l.dropWhile pySpace)).reverse = lowerL (l.dropWhile pySpace).reverse by
    unfold lowerL
    exact (List.map_reverse pyLower (l.dropWhile pySpace)).symm]
  rw [dropWhile_lowerL pySpace pySpace_pyLower (l.dropWhile pySpace).reverse]
  unfold lowerL
  exact (List.map_reverse pyLower _).symm

/-- Normalization is invariant under lowering the input. -/
theorem pyNormalize_lower (s : String) : pyNormalize (pyLowerStr s) = pyNormalize s := by
  show (⟨normalizeL (lowerL s.data)⟩ : String) = ⟨normalizeL s.data⟩
  have hcomm : normalizeL (lowerL s.data) = normalizeL s.data := by
    unfold normalizeL collapseL
    rw [stripL_lower, subUnits_lower, collapseGo_lower, stripL_lower, lowerL_lowerL]
  rw [hcomm]

/-- Claim C8, counterexample: appending a unit designator and token
does not always preserve the key — `"q Apt"` normalizes to `"q apt"`,
but appending `" Unit 5"` makes the pattern consume `" Apt Unit"`
(with `"Unit"` as the greedy `[\w\-]+` token), giving `"q 5"`. -/
theorem c8_counterexample :
    pyNormalize ("q Apt" ++ " Unit 5") ≠ pyNormalize "q Apt" := by
  decide

/-- Claim C8, amended: the three quoted inputs do map to one key, and
normalization is fully case-insensitive — two addresses differing only
in letter case share a key — but the appended-designator invariance
holds only for typical bases, not universally (it fails when the base
itself ends in a designator word). -/
theorem c8_case_insensitive :
    pyNormalize "123 Main St Apt 4" = pyNormalize "123 main st"
    ∧ pyNormalize "123 MAIN ST UNIT 4" = pyNormalize "123 main st"
    ∧ (∀ s : String, pyNormalize (pyLowerStr s) = pyNormalize s)
    ∧ (∀ s t : String, pyLowerStr s = pyLowerStr t → pyNormalize s = pyNormalize t) := by
  refine ⟨by decide, by decide, pyNormalize_lower, fun s t h => ?_⟩
  rw [← pyNormalize_lower s, h, pyNormalize_lower t]

/-- Witness for the amended C8: two spellings of one address differing
only in case share a normalized key. -/
theorem c8_witness :
    pyLowerStr "123 Main St" = pyLowerStr "123 MAIN ST"
    ∧ pyNormalize "123 Main St" = pyNormalize "123 MAIN ST" :=
  ⟨by decide, c8_case_insensitive.2.2.2 "123 Main St" "123 MAIN ST" (by decide)⟩
